import Mathlib

/-!
Verification of the Pulse timeline aggregator and interactive session state
machine (`internal/ui/app.go` and the `internal/db` package), as a shallow
embedding.  The entry store (SQLite `entries` table) is modelled as a list of
rows; each SQL query used by the code is translated condition-for-condition.
Timestamps are modelled as naturals: the code stores RFC3339 UTC strings whose
lexicographic order coincides with chronological order, so `ts >= ?` and
`MAX(ts)` become `≤` and `max` on `Nat`.  The resolution of a scope
(today / this-week / …) into a concrete start timestamp depends on the wall
clock and timezone; the embedding takes the resolved start timestamp `fromTs`
as the argument, exactly as the SQL receives the already-formatted bound.
-/

namespace Pulse

/-- A row of the `entries` table (schema in `internal/db`, plus the
`thread_id` / `parent_id` columns added by `EnsureThreadColumns`).
`project`, `tags`, `thread_id`, `parent_id` are nullable columns. -/
structure Entry where
  id : Nat
  ts : Nat
  category : String
  project : Option String
  tags : Option String
  text : String
  threadId : Option Nat
  parentId : Option Nat
deriving DecidableEq, Repr

/-- Character-level whitespace test (ASCII subset of Go's
`unicode.IsSpace` / `strings.TrimSpace`; all data in this development is
ASCII). -/
def isSpaceCh (ch : Char) : Bool :=
  ch == ' ' || ch == '\t' || ch == '\n' || ch == '\r'

/-- `strings.TrimSpace`. -/
def trimS (s : String) : String :=
  (((s.toList.dropWhile isSpaceCh).reverse.dropWhile isSpaceCh).reverse).asString

/-- ASCII lower-casing of one character (SQLite `lower()` is ASCII-only;
Go's `strings.ToLower` agrees on ASCII). -/
def toLowerCh (ch : Char) : Char :=
  if 'A' ≤ ch && ch ≤ 'Z' then Char.ofNat (ch.toNat + 32) else ch

/-- SQL `lower(x)` / Go `strings.ToLower`. -/
def lowerS (s : String) : String :=
  (s.toList.map toLowerCh).asString

/-- Helper for substring search: whether `n` is a prefix of the second list. -/
def isPrefixOfCh : List Char → List Char → Bool
  | [], _ => true
  | _ :: _, [] => false
  | a :: as, b :: bs => a == b && isPrefixOfCh as bs

/-- Whether `n` occurs as a contiguous run inside the second list. -/
def isInfixOfCh (n : List Char) : List Char → Bool
  | [] => isPrefixOfCh n []
  | b :: bs => isPrefixOfCh n (b :: bs) || isInfixOfCh n bs

/-- SQLite `instr(hay, needle) > 0`: substring containment. -/
def instr (hay needle : String) : Bool :=
  isInfixOfCh needle.toList hay.toList

/-- `instr` applied to a nullable column: `instr(NULL, x) > 0` is NULL in SQL
and a NULL condition does not select the row. -/
def instrOpt (hay : Option String) (needle : String) : Bool :=
  match hay with
  | none => false
  | some h => instr h needle

/-- `strings.Split(csv, ",")` for the one-character separator. -/
def splitCommaAux (acc : List Char) : List Char → List String
  | [] => [acc.reverse.asString]
  | ch :: rest =>
    if ch == ',' then acc.reverse.asString :: splitCommaAux [] rest
    else splitCommaAux (ch :: acc) rest

/-- `splitTags` from `internal/ui/app.go`: trim the CSV string, split on
commas, trim each part, and drop empties. -/
def splitTags (csv : String) : List String :=
  let t := trimS csv
  if t == "" then []
  else ((splitCommaAux [] t.toList).map trimS).filter (fun s => !(s == ""))

/-- The `entry` view struct built by `loadBlocks` for each scanned row:
`COALESCE(project,'')`, tags split from `COALESCE(tags,'')`, lower-cased
category, trimmed text. -/
structure entry where
  id : Nat
  when : Nat
  cat : String
  project : String
  tags : List String
  text : String
deriving DecidableEq, Repr

/-- The `block` struct of `internal/ui/app.go` (the `monthLabel` display field,
which depends on the wall clock, is omitted). -/
structure block where
  rootID : Nat
  rootCat : String
  latest : Nat
  entries : List entry
deriving DecidableEq, Repr

/-- Go zero value `block{}`. -/
def blockZero : block := { rootID := 0, rootCat := "", latest := 0, entries := [] }

/-- Projection of a store row to the `entry` view, as scanned by `loadBlocks`. -/
def toEntry (r : Entry) : entry :=
  { id := r.id
  , when := r.ts
  , cat := lowerS r.category
  , project := r.project.getD ""
  , tags := splitTags (r.tags.getD "")
  , text := trimS r.text }

/-- `COALESCE(thread_id, id)` — the root id under which `loadBlocks` groups a
row. -/
def rootOf (r : Entry) : Nat :=
  match r.threadId with
  | some t => t
  | none => r.id

/-- The WHERE clause assembled by `loadBlocks`:
`ts >= ?` always; then, only when the corresponding filter is set (trimmed
non-blank / nonempty), the text substring disjunction, the exact project
equality, the case-insensitive category equality, and the tag `instr`
conditions joined by AND or OR according to `anyTags`. -/
def matchesFilter (fromTs : Nat) (textFilter proj cat : String)
    (tags : List String) (anyTags : Bool) (r : Entry) : Bool :=
  decide (fromTs ≤ r.ts)
  && (trimS textFilter == ""
      || (instr r.text textFilter || instrOpt r.project textFilter
          || instrOpt r.tags textFilter))
  && (trimS proj == "" || r.project == some proj)
  && (trimS cat == "" || lowerS r.category == lowerS cat)
  && (tags.isEmpty
      || (if anyTags then tags.any (fun t => instrOpt r.tags t)
          else tags.all (fun t => instrOpt r.tags t)))

/-- The rows selected by the WHERE clause. -/
def matchingRows (store : List Entry) (fromTs : Nat) (textFilter proj cat : String)
    (tags : List String) (anyTags : Bool) : List Entry :=
  store.filter (matchesFilter fromTs textFilter proj cat tags anyTags)

/-- `SELECT ... WHERE id = ? OR thread_id = ?` — every row of the thread with
the given root (a NULL `thread_id` never equals the root). -/
def threadRows (store : List Entry) (root : Nat) : List Entry :=
  store.filter (fun r => r.id == root || r.threadId == some root)

/-- `MAX(ts)` over a row list (groups are nonempty wherever this is used). -/
def maxTs (l : List Entry) : Nat :=
  l.foldl (fun acc r => Nat.max acc r.ts) 0

/-- `MAX(ts)` of one `GROUP BY COALESCE(thread_id, id)` group: the maximum
timestamp among the rows that match the WHERE clause and share the root. -/
def groupLatest (rows : List Entry) (root : Nat) : Nat :=
  maxTs (rows.filter (fun r => rootOf r == root))

/-- `ORDER BY ts ASC, id ASC` as a relation on rows. -/
def entryLE (x y : Entry) : Prop :=
  x.ts < y.ts ∨ (x.ts = y.ts ∧ x.id ≤ y.id)

instance : DecidableRel entryLE :=
  fun x y => inferInstanceAs (Decidable (x.ts < y.ts ∨ (x.ts = y.ts ∧ x.id ≤ y.id)))

instance : IsTotal Entry entryLE :=
  ⟨by intro a b; unfold entryLE; omega⟩

instance : IsTrans Entry entryLE :=
  ⟨by intro a b c h1 h2; unfold entryLE at h1 h2 ⊢; omega⟩

/-- The same order on the projected `entry` views (timestamp ascending, id
ascending as tie-break). -/
def viewLE (x y : entry) : Prop :=
  x.when < y.when ∨ (x.when = y.when ∧ x.id ≤ y.id)

/-- Block recency order: `sort.SliceStable(..., blocks[i].latest.After(blocks[j].latest))`,
most recent first. -/
def blockGE (x y : block) : Prop := y.latest ≤ x.latest

instance : DecidableRel blockGE :=
  fun x y => inferInstanceAs (Decidable (y.latest ≤ x.latest))

instance : IsTotal block blockGE :=
  ⟨by intro a b; unfold blockGE; omega⟩

instance : IsTrans block blockGE :=
  ⟨by intro a b c h1 h2; unfold blockGE at h1 h2 ⊢; omega⟩

/-- `ORDER BY ts ASC, id ASC` applied to a row list. -/
def sortEntriesAsc (l : List Entry) : List Entry :=
  l.insertionSort entryLE

/-- The final block sort by most-recent timestamp, descending. -/
def sortBlocksDesc (l : List block) : List block :=
  l.insertionSort blockGE

/-- First-occurrence deduplication (worker with an accumulator of the values
already seen, in reverse). -/
def dedupAux : List Nat → List Nat → List Nat
  | [], acc => acc.reverse
  | a :: l, acc => if a ∈ acc then dedupAux l acc else dedupAux l (a :: acc)

/-- `GROUP BY root`: each root id once, in order of first appearance. -/
def dedupFirst (l : List Nat) : List Nat :=
  dedupAux l []

/-- The `rootCat` scan of `loadBlocks`: the first nonempty lower-cased
category among the thread's rows (in `ts, id` order), else `""`. -/
def firstCat : List Entry → String
  | [] => ""
  | r :: rs => if lowerS r.category == "" then firstCat rs else lowerS r.category

/-- The per-root block construction of `loadBlocks`: fetch the whole thread,
sort it, and skip roots whose fetch comes back empty. -/
def mkBlock (store : List Entry) (root latest : Nat) : Option block :=
  match sortEntriesAsc (threadRows store root) with
  | [] => none
  | it0 :: rest =>
    some { rootID := root
         , rootCat := firstCat (it0 :: rest)
         , latest := latest
         , entries := (it0 :: rest).map toEntry }

/-- `loadBlocks` from `internal/ui/app.go`: build the WHERE clause from the
filters, discover the distinct roots of the matching rows with the maximum
matching timestamp per root, fetch each whole thread, and sort the blocks by
most-recent timestamp descending.  (The relative order of blocks whose
`latest` ties is unspecified at the SQL level; the embedding fixes one.) -/
def loadBlocks (store : List Entry) (fromTs : Nat) (textFilter proj cat : String)
    (tags : List String) (anyTags : Bool) : List block :=
  sortBlocksDesc
    ((dedupFirst ((matchingRows store fromTs textFilter proj cat tags anyTags).map rootOf)).filterMap
      (fun r => mkBlock store r
        (groupLatest (matchingRows store fromTs textFilter proj cat tags anyTags) r)))

/-- `DELETE FROM entries WHERE id = ?` (the `d` key handler). -/
def deleteEntry (store : List Entry) (id : Nat) : List Entry :=
  store.filter (fun r => !(r.id == id))

/-- `GetEntry` from the `db` package: `SELECT ... WHERE id = ?`. -/
def GetEntry (store : List Entry) (id : Nat) : Option Entry :=
  store.find? (fun r => r.id == id)

/-- `RootThreadID` from the `db` package: the root thread id of an entry
(its own id if `thread_id` is absent or nonpositive). -/
def RootThreadID (e : Entry) : Nat :=
  match e.threadId with
  | some t => if 0 < t then t else e.id
  | none => e.id

/-- `nullIfEmpty` from `internal/ui/app.go`: blank strings are stored as SQL
NULL. -/
def nullIfEmpty (s : String) : Option String :=
  if trimS s == "" then none else some s

/-- `insertReplyWithProjectTags` from `internal/ui/app.go`: fetch the parent,
inherit its category (lower-cased, defaulting to `"note"` when blank) and fall
back to the parent's project and tags whenever the override strings are empty,
then insert one row with `thread_id` = the parent's root and `parent_id` = the
parent's id.  The store assigns the fresh id and timestamp; they are passed in
as `newId` / `newTs`.  Returns `none` when the parent does not exist. -/
def insertReplyWithProjectTags (store : List Entry) (newId newTs : Nat)
    (parentID : Nat) (text project tags : String) : Option (List Entry) :=
  match GetEntry store parentID with
  | none => none
  | some parent =>
    let root := RootThreadID parent
    let cat := if trimS parent.category == "" then "note" else lowerS parent.category
    let project2 := if project == "" then parent.project.getD "" else project
    let tags2 := if tags == "" then parent.tags.getD "" else tags
    some (store ++ [{ id := newId
                    , ts := newTs
                    , category := cat
                    , project := nullIfEmpty project2
                    , tags := nullIfEmpty tags2
                    , text := text
                    , threadId := some root
                    , parentId := some parentID }])

/-- `updateEntryTextProjectTags` from `internal/ui/app.go`:
`UPDATE entries SET text = ?, project = COALESCE(NULLIF(?, ''), project),
tags = COALESCE(NULLIF(?, ''), tags) WHERE id = ?` — an empty override leaves
the stored column untouched. -/
def updateEntryTextProjectTags (store : List Entry) (id : Nat)
    (text project tags : String) : List Entry :=
  store.map fun r =>
    if r.id == id then
      { r with text := text
             , project := if project == "" then r.project else some project
             , tags := if tags == "" then r.tags else some tags }
    else r

/-- The declarative side effects a transition handler returns to the event
loop (`loadTimelineCmd` / `loadFacetsCmd`). -/
inductive Effect where
  | reloadTimeline
  | reloadFacets
deriving DecidableEq, Repr

/-- The interactive modes relevant to the filter transitions. -/
inductive Mode where
  | normal
  | search
  | picker
deriving DecidableEq, Repr

/-- The key events `updateSearch` distinguishes (`tea.KeyMsg`): escape, enter,
backspace, a single printable character, anything else. -/
inductive SearchKey where
  | esc
  | enter
  | backspace
  | char (c : Char)
  | other
deriving DecidableEq, Repr

/-- `updateSearch` from `internal/ui/app.go` (live filter-as-you-type),
returning the new mode, the new `filterText`, and the emitted effects.
Esc clears the filter and reloads; enter keeps it; backspace and printable
characters mutate the text and reload.  (Go truncates the final byte on
backspace; for the ASCII strings involved that is the final character.) -/
def updateSearch (filterText : String) (k : SearchKey) :
    Mode × String × List Effect :=
  match k with
  | .esc => (.normal, "", [.reloadTimeline])
  | .enter => (.normal, filterText, [])
  | .backspace =>
    if 0 < filterText.length then
      (.search, filterText.toList.dropLast.asString, [.reloadTimeline])
    else (.search, filterText, [])
  | .char c => (.search, filterText.push c, [.reloadTimeline])
  | .other => (.search, filterText, [])

/-- A sidebar facet item (label and usage count). -/
structure facetItem where
  name : String
  count : Nat
deriving DecidableEq, Repr

/-- Which picker is active. -/
inductive PickerKind where
  | pickProjects
  | pickCategories
  | pickTags
deriving DecidableEq, Repr

/-- `clamp` from `internal/ui/app.go`, restricted to the nonnegative values it
is applied to. -/
def clamp (v lo hi : Nat) : Nat :=
  if v < lo then lo else if v > hi then hi else v

/-- The slice of the model that `updatePicker` reads and writes: the active
picker, the three facet lists, the picker cursor, and the filter fields
(`filterTags` is a set, kept as a duplicate-free list). -/
structure PickerModel where
  activePicker : PickerKind
  projects : List facetItem
  categories : List facetItem
  tags : List facetItem
  pickerCursor : Nat
  filterProj : String
  filterCat : String
  filterTags : List String
deriving DecidableEq, Repr

/-- `updatePicker` from `internal/ui/app.go`.  Enter on a nonempty list
toggles the selected value (projects and categories are single-valued, tags
accumulate a set), leaves picker mode, and emits both a timeline and a facet
reload; enter on an empty list does nothing and stays in the picker. -/
def updatePicker (m : PickerModel) (k : String) :
    PickerModel × Mode × List Effect :=
  if k == "esc" then (m, .normal, [])
  else if k == "up" || k == "k" then
    ({ m with pickerCursor := if 0 < m.pickerCursor then m.pickerCursor - 1 else m.pickerCursor },
     .picker, [])
  else if k == "down" || k == "j" then
    ({ m with pickerCursor := m.pickerCursor + 1 }, .picker, [])
  else if k == "enter" then
    match m.activePicker with
    | .pickProjects =>
      if m.projects.isEmpty then (m, .picker, [])
      else
        let i := clamp m.pickerCursor 0 (m.projects.length - 1)
        let name := (m.projects.getD i { name := "", count := 0 }).name
        let m' := if m.filterProj == name then { m with filterProj := "" }
                  else { m with filterProj := name }
        (m', .normal, [.reloadTimeline, .reloadFacets])
    | .pickCategories =>
      if m.categories.isEmpty then (m, .picker, [])
      else
        let i := clamp m.pickerCursor 0 (m.categories.length - 1)
        let name := lowerS (m.categories.getD i { name := "", count := 0 }).name
        let m' := if m.filterCat == name then { m with filterCat := "" }
                  else { m with filterCat := name }
        (m', .normal, [.reloadTimeline, .reloadFacets])
    | .pickTags =>
      if m.tags.isEmpty then (m, .picker, [])
      else
        let i := clamp m.pickerCursor 0 (m.tags.length - 1)
        let name := (m.tags.getD i { name := "", count := 0 }).name
        let m' := if name ∈ m.filterTags then { m with filterTags := m.filterTags.erase name }
                  else { m with filterTags := name :: m.filterTags }
        (m', .normal, [.reloadTimeline, .reloadFacets])
  else (m, .picker, [])

/-- The timeline slice of the session state that the `blocksLoadedMsg` branch
of `Model.Update` touches. -/
structure SessionState where
  blocks : List block
  cursorBlock : Nat
  cursorEntry : Nat
  threadBlock : block
  status : String
deriving DecidableEq, Repr

/-- The message a timeline reload posts back into the event loop. -/
structure blocksLoadedMsg where
  blocks : List block
  err : Option String
deriving DecidableEq, Repr

/-- The `blocksLoadedMsg` branch of `Model.Update`: a failed reload only sets
the status message; a successful one installs the new block list, zeroes the
cursor when it is empty, and otherwise clamps `cursorBlock` then `cursorEntry`
and refreshes the thread pane from the clamped cursor. -/
def applyBlocksLoaded (s : SessionState) (msg : blocksLoadedMsg) : SessionState :=
  match msg.err with
  | some e => { s with status := "load error: " ++ e }
  | none =>
    let bs := msg.blocks
    if bs.isEmpty then
      { s with blocks := bs, cursorBlock := 0, cursorEntry := 0, threadBlock := blockZero }
    else
      let cb := if s.cursorBlock ≥ bs.length then bs.length - 1 else s.cursorBlock
      let tb := bs.getD cb blockZero
      let ce := if s.cursorEntry ≥ tb.entries.length then tb.entries.length - 1
                else s.cursorEntry
      { s with blocks := bs, cursorBlock := cb, cursorEntry := ce, threadBlock := tb }

/-! ### Concrete store states used by the scenario theorems -/

/-- A surviving reply whose `thread_id` points at root 1, which is no longer
in the store (the orphaned-thread state). -/
def orphanReply : Entry :=
  { id := 2, ts := 5, category := "note", project := none, tags := none
  , text := "hi", threadId := some 1, parentId := some 1 }

/-- A store holding only the orphaned reply. -/
def storeOrphan : List Entry := [orphanReply]

/-- A root on project `api` whose (later) reply is on project `web`. -/
def storeLatest : List Entry :=
  [ { id := 1, ts := 10, category := "note", project := some "api", tags := none
    , text := "root", threadId := none, parentId := none }
  , { id := 2, ts := 20, category := "note", project := some "web", tags := none
    , text := "reply", threadId := some 1, parentId := some 1 } ]

/-- Three root entries tagged `{a}`, `{b}` and `{a,b}`. -/
def storeTags : List Entry :=
  [ { id := 1, ts := 10, category := "note", project := none, tags := some "a"
    , text := "t1", threadId := none, parentId := none }
  , { id := 2, ts := 20, category := "note", project := none, tags := some "b"
    , text := "t2", threadId := none, parentId := none }
  , { id := 3, ts := 30, category := "note", project := none, tags := some "a,b"
    , text := "t3", threadId := none, parentId := none } ]

/-- One entry whose only tag is `golang`. -/
def storeGolang : List Entry :=
  [ { id := 1, ts := 10, category := "note", project := none, tags := some "golang"
    , text := "t", threadId := none, parentId := none } ]

/-- A root entry on project `api` used for the reply-inheritance scenario. -/
def storeParent : List Entry :=
  [ { id := 1, ts := 5, category := "note", project := some "api", tags := some "x"
    , text := "hello", threadId := none, parentId := none } ]

/-! ### Structural lemmas about `loadBlocks` -/

theorem mem_dedupAux {x : Nat} :
    ∀ {l acc : List Nat}, x ∈ dedupAux l acc ↔ x ∈ l ∨ x ∈ acc := by
  intro l
  induction l with
  | nil => intro acc; simp [dedupAux]
  | cons a t ih =>
    intro acc
    by_cases h : a ∈ acc
    · rw [dedupAux, if_pos h, ih]
      have hxa : x = a → x ∈ acc := fun he => he ▸ h
      simp only [List.mem_cons]
      tauto
    · rw [dedupAux, if_neg h, ih]
      simp only [List.mem_cons]
      tauto

theorem mem_dedupFirst {x : Nat} {l : List Nat} : x ∈ dedupFirst l ↔ x ∈ l := by
  rw [dedupFirst, mem_dedupAux]
  simp

/-- Every block returned by `loadBlocks` consists of the complete thread of
its root, sorted ascending; carries the maximum matching timestamp of its
group; and is nonempty. -/
theorem mem_loadBlocks {store : List Entry} {fromTs : Nat} {tf p c : String}
    {tg : List String} {a : Bool} {b : block}
    (hb : b ∈ loadBlocks store fromTs tf p c tg a) :
    b.entries = (sortEntriesAsc (threadRows store b.rootID)).map toEntry ∧
    b.latest = groupLatest (matchingRows store fromTs tf p c tg a) b.rootID ∧
    b.entries ≠ [] := by
  unfold loadBlocks sortBlocksDesc at hb
  rw [List.mem_insertionSort] at hb
  obtain ⟨r, _, hmk⟩ := List.mem_filterMap.mp hb
  unfold mkBlock at hmk
  split at hmk
  · exact absurd hmk (by simp)
  · rename_i it0 rest hs
    obtain rfl : _ = b := Option.some.inj hmk
    refine ⟨?_, rfl, ?_⟩
    · simpa using congrArg (List.map toEntry) hs.symm
    · simp

/-- Any root id contributed by a matching row yields a block in the result
whose entries are the sorted complete thread of that root. -/
theorem loadBlocks_root_exists {store : List Entry} {fromTs : Nat} {tf p c : String}
    {tg : List String} {a : Bool} {x : Entry}
    (hx : x ∈ store) (hm : matchesFilter fromTs tf p c tg a x = true) :
    ∃ b ∈ loadBlocks store fromTs tf p c tg a, b.rootID = rootOf x := by
  have hxm : x ∈ matchingRows store fromTs tf p c tg a :=
    List.mem_filter.mpr ⟨hx, hm⟩
  have hR : rootOf x ∈ (matchingRows store fromTs tf p c tg a).map rootOf :=
    List.mem_map_of_mem _ hxm
  have hR' : rootOf x ∈ dedupFirst ((matchingRows store fromTs tf p c tg a).map rootOf) :=
    mem_dedupFirst.mpr hR
  have hxt : x ∈ threadRows store (rootOf x) := by
    unfold threadRows rootOf
    cases h : x.threadId with
    | none => simp [List.mem_filter, hx]
    | some t => simp [List.mem_filter, hx, h]
  have hne : sortEntriesAsc (threadRows store (rootOf x)) ≠ [] := by
    intro h0
    have hmem : x ∈ sortEntriesAsc (threadRows store (rootOf x)) := by
      unfold sortEntriesAsc
      rw [List.mem_insertionSort]
      exact hxt
    rw [h0] at hmem
    exact absurd hmem (List.not_mem_nil x)
  obtain ⟨it0, rest, hs⟩ :
      ∃ it0 rest, sortEntriesAsc (threadRows store (rootOf x)) = it0 :: rest := by
    cases hsort : sortEntriesAsc (threadRows store (rootOf x)) with
    | nil => exact absurd hsort hne
    | cons y ys => exact ⟨y, ys, rfl⟩
  refine ⟨{ rootID := rootOf x
          , rootCat := firstCat (it0 :: rest)
          , latest := groupLatest (matchingRows store fromTs tf p c tg a) (rootOf x)
          , entries := (it0 :: rest).map toEntry }, ?_, rfl⟩
  unfold loadBlocks sortBlocksDesc
  rw [List.mem_insertionSort]
  exact List.mem_filterMap.mpr ⟨rootOf x, hR', by unfold mkBlock; rw [hs]⟩

/-- The result of `loadBlocks` is sorted by `latest` descending. -/
theorem loadBlocks_pairwise_latest (store : List Entry) (fromTs : Nat)
    (tf p c : String) (tg : List String) (a : Bool) :
    (loadBlocks store fromTs tf p c tg a).Pairwise blockGE := by
  unfold loadBlocks sortBlocksDesc
  exact List.sorted_insertionSort blockGE _

/-- The row order underlying a block's entry list is sorted by `(ts, id)`. -/
theorem sortEntriesAsc_pairwise (l : List Entry) :
    (sortEntriesAsc l).Pairwise entryLE := by
  unfold sortEntriesAsc
  exact List.sorted_insertionSort entryLE l

/-- A row of a thread belongs to that thread's fetched row set. -/
theorem mem_threadRows_of_threadId {store : List Entry} {x : Entry} {R : Nat}
    (hx : x ∈ store) (hxt : x.threadId = some R) :
    x ∈ threadRows store R := by
  unfold threadRows
  refine List.mem_filter.mpr ⟨hx, ?_⟩
  simp [hxt]

/-- After a successful reload, the handler leaves the cursor clamped:
`cursorBlock < max 1 N`, both cursors zero when `N = 0`, and `cursorEntry`
within the entries of the block under the cursor when `N > 0` (given that
every block has a nonempty entry list). -/
theorem applyBlocksLoaded_clamps (s : SessionState) (bs : List block)
    (hne : ∀ b ∈ bs, b.entries ≠ []) :
    (applyBlocksLoaded s ⟨bs, none⟩).cursorBlock < max 1 bs.length ∧
    (bs.length = 0 → (applyBlocksLoaded s ⟨bs, none⟩).cursorBlock = 0 ∧
                     (applyBlocksLoaded s ⟨bs, none⟩).cursorEntry = 0) ∧
    (0 < bs.length →
      (applyBlocksLoaded s ⟨bs, none⟩).cursorEntry <
        (((applyBlocksLoaded s ⟨bs, none⟩).blocks.getD
            (applyBlocksLoaded s ⟨bs, none⟩).cursorBlock blockZero).entries).length) := by
  cases bs with
  | nil =>
    refine ⟨?_, fun _ => ⟨rfl, rfl⟩, fun h => absurd h (by decide)⟩
    show (0 : Nat) < max 1 (List.length ([] : List block))
    decide
  | cons b0 rest =>
    have heq : applyBlocksLoaded s ⟨b0 :: rest, none⟩ =
        { s with blocks := b0 :: rest
               , cursorBlock :=
                   if s.cursorBlock ≥ (b0 :: rest).length then (b0 :: rest).length - 1
                   else s.cursorBlock
               , cursorEntry :=
                   if s.cursorEntry ≥
                       ((b0 :: rest).getD
                         (if s.cursorBlock ≥ (b0 :: rest).length then (b0 :: rest).length - 1
                          else s.cursorBlock) blockZero).entries.length then
                     ((b0 :: rest).getD
                       (if s.cursorBlock ≥ (b0 :: rest).length then (b0 :: rest).length - 1
                        else s.cursorBlock) blockZero).entries.length - 1
                   else s.cursorEntry
               , threadBlock :=
                   (b0 :: rest).getD
                     (if s.cursorBlock ≥ (b0 :: rest).length then (b0 :: rest).length - 1
                      else s.cursorBlock) blockZero } := rfl
    rw [heq]
    set len := (b0 :: rest).length with hlen
    have hlenpos : 0 < len := by rw [hlen]; simp
    set cb := if s.cursorBlock ≥ len then len - 1 else s.cursorBlock with hcb
    have hcblt : cb < len := by
      rw [hcb]
      by_cases h1 : s.cursorBlock ≥ len
      · rw [if_pos h1]; omega
      · rw [if_neg h1]; omega
    set tb := (b0 :: rest).getD cb blockZero with htb
    have htbmem : tb ∈ b0 :: rest := by
      rw [htb, List.getD_eq_getElem _ _ hcblt]
      exact List.getElem_mem hcblt
    have htbne : tb.entries ≠ [] := hne tb htbmem
    have htblen : 0 < tb.entries.length := List.length_pos.mpr htbne
    refine ⟨?_, ?_, ?_⟩
    · show cb < max 1 len
      omega
    · intro h0
      exact absurd h0 (by omega)
    · intro _
      show (if s.cursorEntry ≥ tb.entries.length then tb.entries.length - 1
            else s.cursorEntry) < tb.entries.length
      by_cases h2 : s.cursorEntry ≥ tb.entries.length
      · rw [if_pos h2]; omega
      · rw [if_neg h2]; omega

/-! ### Claims -/

/-- Claim C1, counterexample.  The claim states that when a thread's root was
deleted but a matching reply with `thread_id` pointing at it survives,
`loadBlocks` returns no block for that root id.  In fact
`COALESCE(thread_id, id)` on the surviving reply still contributes the deleted
root id to the root-discovery query, and `WHERE id = ? OR thread_id = ?`
fetches the surviving replies, so a block for root 1 is present. -/
theorem loadBlocks_orphan_counterexample :
    (loadBlocks storeOrphan 0 "" "" "" [] false).any (fun b => b.rootID == 1) = true := by
  decide

/-- Claim C1, amended.  In a store whose root entry `R` has been deleted while
a reply with `thread_id = R` survives and matches the filter predicate,
`loadBlocks` does reach the thread: it returns a block for root id `R` whose
entry list is exactly the surviving thread rows sorted ascending, containing
the matching reply. -/
theorem loadBlocks_orphan_thread_reachable
    (store : List Entry) (fromTs : Nat) (tf p c : String) (tg : List String)
    (a : Bool) (R : Nat) (x : Entry)
    (_hdel : ∀ r ∈ store, r.id ≠ R)
    (hx : x ∈ store) (hxt : x.threadId = some R)
    (hm : matchesFilter fromTs tf p c tg a x = true) :
    ∃ b ∈ loadBlocks store fromTs tf p c tg a,
      b.rootID = R ∧
      b.entries = (sortEntriesAsc (threadRows store R)).map toEntry ∧
      toEntry x ∈ b.entries := by
  have hr : rootOf x = R := by unfold rootOf; rw [hxt]
  obtain ⟨b, hb, hbr⟩ := loadBlocks_root_exists hx hm
  rw [hr] at hbr
  obtain ⟨hent, -, -⟩ := mem_loadBlocks hb
  rw [hbr] at hent
  refine ⟨b, hb, hbr, hent, ?_⟩
  rw [hent]
  refine List.mem_map_of_mem _ ?_
  unfold sortEntriesAsc
  rw [List.mem_insertionSort]
  exact mem_threadRows_of_threadId hx hxt

/-- Claim C1, witness: the amended theorem applied to the concrete orphaned
store. -/
theorem loadBlocks_orphan_thread_reachable_witness :
    (∀ r ∈ storeOrphan, r.id ≠ 1) ∧
    ∃ b ∈ loadBlocks storeOrphan 0 "" "" "" [] false,
      b.rootID = 1 ∧
      b.entries = (sortEntriesAsc (threadRows storeOrphan 1)).map toEntry ∧
      toEntry orphanReply ∈ b.entries :=
  ⟨by decide,
   loadBlocks_orphan_thread_reachable storeOrphan 0 "" "" "" [] false 1 orphanReply
     (by decide) (by decide) rfl (by decide)⟩

/-- Claim C3, counterexample.  The claim states that every returned block
carries the maximum timestamp among its thread's members.  With the root on
project `api` and a later reply on project `web`, filtering by project `api`
returns the block with `latest = 10` (the maximum over the rows matching the
predicate), while the maximum over the thread's members is 20. -/
theorem loadBlocks_latest_counterexample :
    (loadBlocks storeLatest 0 "" "api" "" [] false).any
      (fun b => !(b.latest == maxTs (threadRows storeLatest b.rootID))) = true := by
  decide

/-- Claim C3, amended.  Each returned block carries the maximum timestamp
among its thread's members that match the filter predicate (not among all
thread members), and the block list is sorted by that timestamp descending. -/
theorem loadBlocks_latest_matching_sorted (store : List Entry) (fromTs : Nat)
    (tf p c : String) (tg : List String) (a : Bool) :
    (∀ b ∈ loadBlocks store fromTs tf p c tg a,
        b.latest = groupLatest (matchingRows store fromTs tf p c tg a) b.rootID) ∧
    (loadBlocks store fromTs tf p c tg a).Pairwise blockGE :=
  ⟨fun _ hb => (mem_loadBlocks hb).2.1,
   loadBlocks_pairwise_latest store fromTs tf p c tg a⟩

/-- Claim C3, witness: the amended theorem applied to the concrete store. -/
theorem loadBlocks_latest_matching_sorted_witness :
    (∀ b ∈ loadBlocks storeLatest 0 "" "api" "" [] false,
        b.latest = groupLatest (matchingRows storeLatest 0 "" "api" "" [] false) b.rootID) ∧
    (loadBlocks storeLatest 0 "" "api" "" [] false).Pairwise blockGE :=
  loadBlocks_latest_matching_sorted storeLatest 0 "" "api" "" [] false

/-- Claim C5.  For every entry `E` with `thread_id = R`, whenever `loadBlocks`
returns a block for root `R`, that block contains `E`, and the block's entry
list is sorted by timestamp ascending with id ascending as tie-break,
independently of which thread member satisfied the filter. -/
theorem loadBlocks_thread_integrity (store : List Entry) (fromTs : Nat)
    (tf p c : String) (tg : List String) (a : Bool) (R : Nat) (E : Entry) (b : block)
    (hE : E ∈ store) (hEt : E.threadId = some R)
    (hb : b ∈ loadBlocks store fromTs tf p c tg a) (hbr : b.rootID = R) :
    toEntry E ∈ b.entries ∧ b.entries.Pairwise viewLE := by
  obtain ⟨hent, -, -⟩ := mem_loadBlocks hb
  rw [hbr] at hent
  constructor
  · rw [hent]
    refine List.mem_map_of_mem _ ?_
    unfold sortEntriesAsc
    rw [List.mem_insertionSort]
    exact mem_threadRows_of_threadId hE hEt
  · rw [hent]
    refine List.Pairwise.map toEntry ?_ (sortEntriesAsc_pairwise _)
    intro u v huv
    unfold entryLE at huv
    unfold viewLE toEntry
    simpa using huv

/-- Claim C5, witness: the theorem applied to the concrete two-entry thread,
whose single block is computed explicitly. -/
theorem loadBlocks_thread_integrity_witness :
    toEntry { id := 2, ts := 20, category := "note", project := some "web", tags := none
            , text := "reply", threadId := some 1, parentId := some 1 } ∈
      ({ rootID := 1, rootCat := "note", latest := 20
       , entries := [ { id := 1, when := 10, cat := "note", project := "api", tags := [], text := "root" }
                    , { id := 2, when := 20, cat := "note", project := "web", tags := [], text := "reply" } ] } : block).entries ∧
    ({ rootID := 1, rootCat := "note", latest := 20
     , entries := [ { id := 1, when := 10, cat := "note", project := "api", tags := [], text := "root" }
                  , { id := 2, when := 20, cat := "note", project := "web", tags := [], text := "reply" } ] } : block).entries.Pairwise viewLE :=
  loadBlocks_thread_integrity storeLatest 0 "" "" "" [] false 1
    { id := 2, ts := 20, category := "note", project := some "web", tags := none
    , text := "reply", threadId := some 1, parentId := some 1 }
    _ (by decide) rfl (by decide) rfl

/-- Claim C6.  Given entries tagged `{a}`, `{b}` and `{a,b}`, filtering by the
tag set `{a,b}` with AND semantics returns only the entry tagged `{a,b}`;
with OR semantics all three are returned. -/
theorem loadBlocks_tag_and_or_semantics :
    (loadBlocks storeTags 0 "" "" "" ["a", "b"] false).map
        (fun b => b.entries.map entry.id) = [[3]] ∧
    (loadBlocks storeTags 0 "" "" "" ["a", "b"] true).map
        (fun b => b.entries.map entry.id) = [[3], [2], [1]] := by
  decide

/-- Claim C10.  Tag filtering tests substring containment against the
comma-joined tag string: the entry whose only tag is `golang` is returned for
the tag filter `{go}`, although `go` is not among its tags. -/
theorem loadBlocks_tag_substring_match :
    (loadBlocks storeGolang 0 "" "" "" ["go"] false).map
        (fun b => b.entries.map entry.id) = [[1]] ∧
    splitTags "golang" = ["golang"] ∧
    ("go" : String) ∉ splitTags "golang" := by
  decide

/-- Claim C4.  After every reload that replaces the block list with the `N`
blocks computed by `loadBlocks`, the cursor satisfies
`cursorBlock < max 1 N`; when `N = 0` both cursors are zero; when `N > 0`
`cursorEntry` indexes into the entries of the block under the cursor; and
deleting the only entry of the only block followed by a reload yields zero
blocks with `cursorBlock = 0`. -/
theorem blocksLoaded_clamps_cursor (s : SessionState) (store : List Entry)
    (fromTs : Nat) (tf p c : String) (tg : List String) (a : Bool) :
    ((applyBlocksLoaded s ⟨loadBlocks store fromTs tf p c tg a, none⟩).cursorBlock
        < max 1 (loadBlocks store fromTs tf p c tg a).length) ∧
    ((loadBlocks store fromTs tf p c tg a).length = 0 →
      (applyBlocksLoaded s ⟨loadBlocks store fromTs tf p c tg a, none⟩).cursorBlock = 0 ∧
      (applyBlocksLoaded s ⟨loadBlocks store fromTs tf p c tg a, none⟩).cursorEntry = 0) ∧
    (0 < (loadBlocks store fromTs tf p c tg a).length →
      (applyBlocksLoaded s ⟨loadBlocks store fromTs tf p c tg a, none⟩).cursorEntry <
        (((applyBlocksLoaded s ⟨loadBlocks store fromTs tf p c tg a, none⟩).blocks.getD
            (applyBlocksLoaded s ⟨loadBlocks store fromTs tf p c tg a, none⟩).cursorBlock
            blockZero).entries).length) ∧
    (∀ e : Entry,
      (applyBlocksLoaded s ⟨loadBlocks (deleteEntry [e] e.id) fromTs tf p c tg a, none⟩).blocks
        = [] ∧
      (applyBlocksLoaded s ⟨loadBlocks (deleteEntry [e] e.id) fromTs tf p c tg a, none⟩).cursorBlock
        = 0) := by
  obtain ⟨h1, h2, h3⟩ :=
    applyBlocksLoaded_clamps s (loadBlocks store fromTs tf p c tg a)
      (fun _ hb => (mem_loadBlocks hb).2.2)
  refine ⟨h1, h2, h3, ?_⟩
  intro e
  have hdel : deleteEntry [e] e.id = [] := by simp [deleteEntry]
  rw [hdel]
  exact ⟨rfl, rfl⟩

/-- Claim C4, witness: the theorem applied to a session whose cursor points
far outside the single-block result. -/
theorem blocksLoaded_clamps_cursor_witness :
    ((applyBlocksLoaded ⟨[], 5, 7, blockZero, ""⟩
        ⟨loadBlocks storeGolang 0 "" "" "" [] false, none⟩).cursorBlock
        < max 1 (loadBlocks storeGolang 0 "" "" "" [] false).length) ∧
    ((loadBlocks storeGolang 0 "" "" "" [] false).length = 0 →
      (applyBlocksLoaded ⟨[], 5, 7, blockZero, ""⟩
        ⟨loadBlocks storeGolang 0 "" "" "" [] false, none⟩).cursorBlock = 0 ∧
      (applyBlocksLoaded ⟨[], 5, 7, blockZero, ""⟩
        ⟨loadBlocks storeGolang 0 "" "" "" [] false, none⟩).cursorEntry = 0) ∧
    (0 < (loadBlocks storeGolang 0 "" "" "" [] false).length →
      (applyBlocksLoaded ⟨[], 5, 7, blockZero, ""⟩
        ⟨loadBlocks storeGolang 0 "" "" "" [] false, none⟩).cursorEntry <
        (((applyBlocksLoaded ⟨[], 5, 7, blockZero, ""⟩
            ⟨loadBlocks storeGolang 0 "" "" "" [] false, none⟩).blocks.getD
            (applyBlocksLoaded ⟨[], 5, 7, blockZero, ""⟩
              ⟨loadBlocks storeGolang 0 "" "" "" [] false, none⟩).cursorBlock
            blockZero).entries).length) ∧
    (∀ e : Entry,
      (applyBlocksLoaded ⟨[], 5, 7, blockZero, ""⟩
        ⟨loadBlocks (deleteEntry [e] e.id) 0 "" "" "" [] false, none⟩).blocks = [] ∧
      (applyBlocksLoaded ⟨[], 5, 7, blockZero, ""⟩
        ⟨loadBlocks (deleteEntry [e] e.id) 0 "" "" "" [] false, none⟩).cursorBlock = 0) :=
  blocksLoaded_clamps_cursor ⟨[], 5, 7, blockZero, ""⟩ storeGolang 0 "" "" "" [] false

/-- Claim C9.  A reload that completes with a store error leaves the block
list, both cursors, and the thread pane at their last-known-good values; only
the status message changes. -/
theorem blocksLoaded_error_keeps_state (s : SessionState) (bs : List block)
    (e : String) :
    applyBlocksLoaded s { blocks := bs, err := some e } =
      { s with status := "load error: " ++ e } := rfl

/-- Claim C2, counterexample.  The claim states that every filter-only
mutation — picker confirm, search text change, or tag toggle — emits both a
timeline reload and a facet reload.  A search text change (typing a character
in `updateSearch`) emits only the timeline reload. -/
theorem updateSearch_no_facet_reload :
    (updateSearch "" (SearchKey.char 'a')).2.2 = [Effect.reloadTimeline] ∧
    Effect.reloadFacets ∉ (updateSearch "" (SearchKey.char 'a')).2.2 := by
  decide

/-- Claim C2, amended.  A picker confirm (including a tag toggle, which is
performed through the tag picker) on a nonempty facet list emits both a
timeline reload and a facet reload; a search text change (character typed or
backspace on nonempty text) emits only a timeline reload. -/
theorem filter_mutation_reload_effects (m : PickerModel) (ft : String) (c : Char)
    (hp : m.activePicker = .pickProjects → m.projects ≠ [])
    (hc : m.activePicker = .pickCategories → m.categories ≠ [])
    (ht : m.activePicker = .pickTags → m.tags ≠ []) :
    (updatePicker m "enter").2.2 = [Effect.reloadTimeline, Effect.reloadFacets] ∧
    (updateSearch ft (SearchKey.char c)).2.2 = [Effect.reloadTimeline] ∧
    (0 < ft.length → (updateSearch ft SearchKey.backspace).2.2 = [Effect.reloadTimeline]) := by
  refine ⟨?_, rfl, ?_⟩
  · obtain ⟨ap, prjs, cats, tgs, cur, fp, fc, ftg⟩ := m
    unfold updatePicker
    rw [if_neg (by decide), if_neg (by decide), if_neg (by decide), if_pos (by decide)]
    cases ap with
    | pickProjects =>
      dsimp only
      rw [if_neg (by simpa [List.isEmpty_iff] using hp rfl)]
    | pickCategories =>
      dsimp only
      rw [if_neg (by simpa [List.isEmpty_iff] using hc rfl)]
    | pickTags =>
      dsimp only
      rw [if_neg (by simpa [List.isEmpty_iff] using ht rfl)]
  · intro h
    unfold updateSearch
    rw [if_pos h]

/-- Claim C2, witness: the amended theorem applied to a tag picker holding one
tag and the search text `"ab"`. -/
theorem filter_mutation_reload_effects_witness :
    (updatePicker ⟨.pickTags, [], [], [⟨"x", 1⟩], 0, "", "", []⟩ "enter").2.2
      = [Effect.reloadTimeline, Effect.reloadFacets] ∧
    (updateSearch "ab" (SearchKey.char 'z')).2.2 = [Effect.reloadTimeline] ∧
    (0 < ("ab" : String).length →
      (updateSearch "ab" SearchKey.backspace).2.2 = [Effect.reloadTimeline]) :=
  filter_mutation_reload_effects ⟨.pickTags, [], [], [⟨"x", 1⟩], 0, "", "", []⟩ "ab" 'z'
    (by intro h; cases h) (by intro h; cases h) (by intro _; decide)

/-- Claim C7.  Confirming a reply to parent `P` appends exactly one entry
whose `thread_id` is `P`'s `thread_id` when set (else `P`'s own id), whose
`parent_id` is `P`'s id, whose category is inherited from `P`, and — when the
project override is empty — whose stored project equals `P`'s project. -/
theorem insertReply_inherits (store : List Entry) (pid nid nts : Nat)
    (text : String) (parent : Entry)
    (hp : GetEntry store pid = some parent)
    (hcat : trimS parent.category ≠ "")
    (hlow : lowerS parent.category = parent.category)
    (htid : ∀ t, parent.threadId = some t → 0 < t) :
    ∃ n : Entry,
      insertReplyWithProjectTags store nid nts pid text "" "" = some (store ++ [n]) ∧
      n.parentId = some pid ∧
      n.category = parent.category ∧
      (∀ t, parent.threadId = some t → n.threadId = some t) ∧
      (parent.threadId = none → n.threadId = some parent.id) ∧
      (∀ p2, parent.project = some p2 → trimS p2 ≠ "" → n.project = some p2) := by
  have hb : (trimS parent.category == "") = false := by
    simpa using hcat
  refine ⟨{ id := nid, ts := nts
          , category := if trimS parent.category == "" then "note" else lowerS parent.category
          , project := nullIfEmpty (if ("" : String) == "" then parent.project.getD "" else "")
          , tags := nullIfEmpty (if ("" : String) == "" then parent.tags.getD "" else "")
          , text := text
          , threadId := some (RootThreadID parent)
          , parentId := some pid }, ?_, rfl, ?_, ?_, ?_, ?_⟩
  · unfold insertReplyWithProjectTags
    rw [hp]
  · show (if trimS parent.category == "" then "note" else lowerS parent.category)
        = parent.category
    rw [hb]
    simpa using hlow
  · intro t htp
    show some (RootThreadID parent) = some t
    unfold RootThreadID
    rw [htp]
    dsimp only
    rw [if_pos (htid t htp)]
  · intro htp
    show some (RootThreadID parent) = some parent.id
    unfold RootThreadID
    rw [htp]
  · intro p2 hp2 hp2ne
    show nullIfEmpty (if ("" : String) == "" then parent.project.getD "" else "")
        = some p2
    rw [if_pos (show (("" : String) == "") = true from rfl), hp2]
    show nullIfEmpty p2 = some p2
    unfold nullIfEmpty
    rw [if_neg (by simpa using hp2ne)]

/-- Claim C7, witness: replying with empty overrides to a root on project
`api` stores project `api`, inherits the category, and threads under the
root's id. -/
theorem insertReply_inherits_witness :
    trimS "note" ≠ "" ∧
    ∃ n : Entry,
      insertReplyWithProjectTags storeParent 2 9 1 "re" "" "" = some (storeParent ++ [n]) ∧
      n.parentId = some 1 ∧
      n.category = "note" ∧
      (∀ t, (none : Option Nat) = some t → n.threadId = some t) ∧
      ((none : Option Nat) = none → n.threadId = some 1) ∧
      (∀ p2, (some "api" : Option String) = some p2 → trimS p2 ≠ "" → n.project = some p2) :=
  ⟨by decide,
   insertReply_inherits storeParent 1 2 9 "re"
     { id := 1, ts := 5, category := "note", project := some "api", tags := some "x"
     , text := "hello", threadId := none, parentId := none }
     rfl (by decide) (by decide) (fun t h => nomatch h)⟩

/-- Claim C8.  An edit confirmed with empty project and tags overrides
changes only the target entry's text: its project, tags, category (and every
other stored field) keep their previous values, and every other entry is
unchanged. -/
theorem updateEntry_preserves_unset_fields (store : List Entry) (id : Nat)
    (text : String) :
    List.Forall₂
      (fun r r' => (r.id = id → r' = { r with text := text }) ∧ (r.id ≠ id → r' = r))
      store (updateEntryTextProjectTags store id text "" "") := by
  unfold updateEntryTextProjectTags
  induction store with
  | nil => exact List.Forall₂.nil
  | cons r rs ih =>
    rw [List.map_cons]
    refine List.Forall₂.cons ?_ ih
    by_cases h : r.id = id
    · have hbeq : (r.id == id) = true := by simpa using h
      refine ⟨fun _ => ?_, fun hne => absurd h hne⟩
      rw [if_pos hbeq]
      rfl
    · have hbeq : (r.id == id) = false := by simpa using h
      refine ⟨fun he => absurd he h, fun _ => ?_⟩
      rw [hbeq]
      rfl

/-- Claim C8, witness: the theorem applied to the concrete two-entry store
with an edit of entry 1. -/
theorem updateEntry_preserves_unset_fields_witness :
    List.Forall₂
      (fun r r' => (r.id = 1 → r' = { r with text := "new" }) ∧ (r.id ≠ 1 → r' = r))
      storeLatest (updateEntryTextProjectTags storeLatest 1 "new" "" "") :=
  updateEntry_preserves_unset_fields storeLatest 1 "new"

end Pulse
